import Mathlib

/-!
Verification development for the BMS wire-protocol codec layer of the
Gobel-Battery-HA-Addon repository.

The Python sources are shallowly embedded: pure functions become Lean
functions on `Nat`/`Int`/`ℚ`/`List`, fallible code returns `Option`, and
the stateful energy accumulator becomes explicit state passing.  Machine
arithmetic is modelled with `Nat` and explicit `% 2 ^ w` / bitwise
operators where the source relies on word width.  Python `float` values
are idealised as rationals; `round(x, n)` is modelled as decimal
rounding with ties to even, which agrees with Python on every value
appearing in the theorems below.
-/

set_option maxRecDepth 8000

namespace Gobel

/-! ## Python-style rounding on rationals

`round(x, nd)` in Python rounds to `nd` decimal places with ties going
to the even neighbour.  On rationals this is `rhalfEven (x * 10^nd) / 10^nd`.
-/

/-- Round a rational to the nearest integer, ties to the even integer. -/
def rhalfEven (q : ℚ) : ℤ :=
  let f : ℤ := ⌊q⌋
  let r : ℚ := q - f
  if r < 1/2 then f
  else if 1/2 < r then f + 1
  else if f % 2 = 0 then f else f + 1

/-- Python's `round(q, nd)` on rationals. -/
def pyRound (nd : ℕ) (q : ℚ) : ℚ :=
  ((rhalfEven (q * 10 ^ nd) : ℚ)) / 10 ^ nd

theorem rhalfEven_intCast (n : ℤ) : rhalfEven (n : ℚ) = n := by
  unfold rhalfEven
  norm_num

/-- `pyRound` is exact on values with at most `nd` decimal places. -/
theorem pyRound_eq_intCast_div {nd : ℕ} {q : ℚ} (m : ℤ) (h : q * 10 ^ nd = (m : ℚ)) :
    pyRound nd q = (m : ℚ) / 10 ^ nd := by
  rw [pyRound, h, rhalfEven_intCast]

/-! ## Uppercase hexadecimal rendering

Python's `format(n, 'X')`: uppercase hexadecimal digits, no leading
zeros, no fixed width.
-/

/-- One uppercase hexadecimal digit for `n < 16`. -/
def hexDigit (n : Nat) : Char :=
  if n < 10 then Char.ofNat (48 + n) else Char.ofNat (55 + n)

/-- Accumulate the uppercase hexadecimal digits of `n` in front of
`acc`; the first argument is fuel, kept at least `n` by the caller so
that it never runs out. -/
def hexDigitsAux : Nat → Nat → List Char → List Char
  | 0, _, acc => acc
  | fuel + 1, n, acc =>
      if n = 0 then acc else hexDigitsAux fuel (n / 16) (hexDigit (n % 16) :: acc)

/-- Python's `format(n, 'X')`: uppercase hexadecimal, no padding. -/
def natToHexUpper (n : Nat) : String :=
  if n = 0 then "0" else String.mk (hexDigitsAux n n [])

/-! ## ASCII frame checksum (`PACEBMS.chksum_calc`, identical in
`TDTBMS232.chksum_calc`)

Source:
```
chksum = sum(data[element] for element in range(1, len(data))) % 65536
chksum_bin = '{0:016b}'.format(chksum)
flip_bits = ''.join('1' if b == '0' else '0' for b in chksum_bin)
chksum = format(int(flip_bits, 2) + 1, 'X')
```
Flipping every character of the 16-character binary rendering of a value
below 65536 is XOR with `0xFFFF`.
-/

/-- Sum of the bytes of `data` excluding the first one. -/
def sumTail (data : List Nat) : Nat := data.tail.sum

/-- `PACEBMS.chksum_calc` / `TDTBMS232.chksum_calc`. -/
def chksum_calc (data : List Nat) : String :=
  natToHexUpper (((sumTail data % 65536) ^^^ 0xFFFF) + 1)

/-! ## Warning-code interpreter (`PACEBMS.interpret_warning`) -/

/-- `PACEBMS.interpret_warning`. -/
def interpret_warning (value : Nat) : String :=
  if value = 0x00 then "normal"
  else if value = 0x01 then "below lower limit"
  else if value = 0x02 then "above upper limit"
  else if 0x80 ≤ value ∧ value ≤ 0xEF then "user defined"
  else if value = 0xF0 then "other fault"
  else "unknown"

/-! ## Modbus CRC16 (`JKBMS485.calculate_crc16_modbus`) -/

/-- One shift-right round of the Modbus CRC16 bit algorithm. -/
def crcRound (c : Nat) : Nat :=
  if c % 2 = 1 then (c / 2) ^^^ 0xA001 else c / 2

/-- Fold one byte into the CRC state: XOR into the low byte, then eight
shift-right rounds. -/
def crcByte (c b : Nat) : Nat := crcRound^[8] (c ^^^ b)

/-- `JKBMS485.calculate_crc16_modbus`: seed `0xFFFF`, then fold each byte. -/
def calculate_crc16_modbus (data : List Nat) : Nat :=
  data.foldl crcByte 0xFFFF

/-! ## Modbus request builder (`JKBMS485.build_read_register_command`)

`struct.pack('>BBHH', ...)` followed by the CRC appended little-endian.
-/

/-- Big-endian 2-byte encoding of a 16-bit value. -/
def packU16BE (v : Nat) : List Nat := [v / 256 % 256, v % 256]

/-- `JKBMS485.build_read_register_command` (slave address passed
explicitly).  `struct.pack('>BBHH', ...)` raises when an argument is
out of range, modelled by `none`; `struct.pack('<H', crc)` appends the
CRC low byte first. -/
def build_read_register_command (slave_address register_address register_count : Nat) :
    Option (List Nat) :=
  if slave_address < 256 ∧ register_address < 65536 ∧ register_count < 65536 then
    let command_frame :=
      [slave_address, 0x03] ++ packU16BE register_address ++ packU16BE register_count
    let crc := calculate_crc16_modbus command_frame
    some (command_frame ++ [crc % 256, crc / 256 % 256])
  else none

/-! ## Modbus response parser (`JKBMS485.parse_register_response`)

The source returns `None` on short frames, CRC mismatch and wrong
function code; otherwise it slices `byte_count` bytes starting at offset
3 of the *whole* response (Python slicing clamps at the end of the
list) and decodes the complete big-endian 2-byte pairs in the slice.
-/

/-- Element of a list at an index, with default `0` (Python indexing in
the embedded code is always in range when used). -/
def nthD (l : List Nat) (i : Nat) : Nat := l.getD i 0

/-- Decode consecutive big-endian 2-byte pairs, dropping a trailing odd
byte (`for i in range(0, len, 2): if i+1 < len: unpack('>H')`). -/
def regPairs : List Nat → List Nat
  | a :: b :: rest => (a * 256 + b) :: regPairs rest
  | _ => []

/-- `JKBMS485.parse_register_response`. -/
def parse_register_response (response : List Nat) : Option (List Nat) :=
  if response.length < 5 then none
  else
    let data_without_crc := response.take (response.length - 2)
    let received_crc :=
      nthD response (response.length - 2) + 256 * nthD response (response.length - 1)
    let calculated_crc := calculate_crc16_modbus data_without_crc
    if received_crc ≠ calculated_crc then none
    else if nthD response 1 ≠ 0x03 then none
    else
      let byte_count := nthD response 2
      some (regPairs ((response.drop 3).take byte_count))

/-! ## Modbus cell-voltage reader (`JKBMS485.get_cell_voltages`)

After a successful register read the source keeps only the strictly
positive register values (`if voltage > 0: append`).
-/

/-- The filtering step of `JKBMS485.get_cell_voltages` applied to the
decoded register values. -/
def get_cell_voltages_filter (register_values : List Nat) : List Nat :=
  register_values.filter (fun voltage => 0 < voltage)

/-! ## Energy accumulator (`JKBMS485.calculate_cumulative_energy`,
`JKBMS485.reset_cumulative_energy`)

The three instance attributes become an explicit state record; the
ambient `time.time()` becomes an explicit `now` argument.  The power
argument is modelled as a rational (callers substitute `0.0` for a
missing reading before the call).
-/

/-- The accumulator state held by a `JKBMS485` instance. -/
structure EnergyState where
  total_energy_charged : ℚ
  total_energy_discharged : ℚ
  last_energy_time : Option ℚ
  deriving DecidableEq

/-- The state of a freshly constructed `JKBMS485` instance. -/
def initEnergyState : EnergyState :=
  { total_energy_charged := 0, total_energy_discharged := 0, last_energy_time := none }

/-- `JKBMS485.calculate_cumulative_energy`: returns the new state and
the `(charged, discharged)` pair the source returns. -/
def calculate_cumulative_energy (st : EnergyState) (current_power_kw : ℚ) (now : ℚ) :
    EnergyState × (ℚ × ℚ) :=
  match st.last_energy_time with
  | none =>
      let st' := { st with last_energy_time := some now }
      (st', (st.total_energy_charged, st.total_energy_discharged))
  | some last =>
      let time_interval := now - last
      let st' := { st with last_energy_time := some now }
      if time_interval ≤ 0 ∨ 300 < time_interval then
        (st', (st'.total_energy_charged, st'.total_energy_discharged))
      else
        let energy_delta := |current_power_kw| * time_interval * 1000 / 3600
        if 0 ≤ current_power_kw then
          let st'' := { st' with
            total_energy_charged := st'.total_energy_charged + energy_delta }
          (st'', (st''.total_energy_charged, st''.total_energy_discharged))
        else
          let st'' := { st' with
            total_energy_discharged := st'.total_energy_discharged + energy_delta }
          (st'', (st''.total_energy_charged, st''.total_energy_discharged))

/-- `JKBMS485.reset_cumulative_energy`. -/
def reset_cumulative_energy : EnergyState :=
  { total_energy_charged := 0, total_energy_discharged := 0, last_energy_time := none }

/-- State after a sequence of accumulate calls, each a `(power, now)` pair. -/
def runEnergyCalls (st : EnergyState) (calls : List (ℚ × ℚ)) : EnergyState :=
  calls.foldl (fun s c => (calculate_cumulative_energy s c.1 c.2).1) st

/-! ## ASCII analog response parser (`PACEBMS.parse_analog_data`)

The response is an ASCII string.  The source drops a leading `'~'`,
splits the rest into 2-character fields, requires `fields[2] == '46'`
and `fields[3] == '00'`, reads the (unused) length word, the INFOFLAG
and the pack count, and then walks the per-pack grammar sequentially.
Any out-of-range index or non-hexadecimal field raises in Python; the
embedding returns `none` there.
-/

/-- Numeric value of one hexadecimal character (`int(c, 16)` accepts
both cases). -/
def hexVal? (c : Char) : Option Nat :=
  if '0' ≤ c ∧ c ≤ '9' then some (c.toNat - 48)
  else if 'A' ≤ c ∧ c ≤ 'F' then some (c.toNat - 55)
  else if 'a' ≤ c ∧ c ≤ 'f' then some (c.toNat - 87)
  else none

/-- `int(s, 16)` on a non-empty list of characters. -/
def parseHex? (s : List Char) : Option Nat :=
  match s with
  | [] => none
  | _ :: _ =>
      s.foldl (fun acc c =>
        match acc, hexVal? c with
        | some v, some d => some (v * 16 + d)
        | _, _ => none) (some 0)

/-- `[response[i:i+2] for i in range(0, len(response), 2)]`. -/
def chunk2 : List Char → List (List Char)
  | [] => []
  | [a] => [[a]]
  | a :: b :: rest => [a, b] :: chunk2 rest

/-- `int(fields[i], 16)`, failing when the field is missing or non-hex. -/
def fieldNat (fields : List (List Char)) (i : Nat) : Option Nat :=
  (fields.get? i).bind parseHex?

/-- `int(fields[i] + fields[i+1], 16)`: two consecutive fields
concatenated and parsed as one hexadecimal number. -/
def fieldWord (fields : List (List Char)) (i : Nat) : Option Nat :=
  match fields.get? i, fields.get? (i + 1) with
  | some a, some b => parseHex? (a ++ b)
  | _, _ => none

/-- The pack-current decode step of `PACEBMS.parse_analog_data`: the
source divides by 100 and rounds *first*, and only afterwards applies
the 16-bit two's complement test to the quotient. -/
def paceDecodeCurrent (raw_current : Nat) : ℚ :=
  let pack_current := pyRound 2 ((raw_current : ℚ) / 100)
  if 32767 < pack_current then pack_current - 65536 else pack_current

/-- One pack's analog record as built by `PACEBMS.parse_analog_data`. -/
structure PacePackData where
  num_cells : Nat
  cell_voltages : List Nat
  num_temps : Nat
  temperatures : List ℚ
  pack_current : ℚ
  pack_total_voltage : ℚ
  pack_remain_capacity : ℚ
  pack_full_capacity : ℚ
  cycle_number : Nat
  pack_design_capacity : ℚ
  deriving DecidableEq

/-- Read `count` consecutive 2-byte words starting at `offset`. -/
def readWords (fields : List (List Char)) (offset count : Nat) :
    Option (List Nat × Nat) :=
  match count with
  | 0 => some ([], offset)
  | c + 1 =>
      match fieldWord fields offset with
      | none => none
      | some v =>
          match readWords fields (offset + 2) c with
          | none => none
          | some (vs, o) => some (v :: vs, o)

/-- The per-pack loop body of `PACEBMS.parse_analog_data`. -/
def parsePacePack (fields : List (List Char)) (offset : Nat) :
    Option (PacePackData × Nat) :=
  match fieldNat fields offset with
  | none => none
  | some num_cells =>
    match readWords fields (offset + 1) num_cells with
    | none => none
    | some (cell_voltages, o1) =>
      match fieldNat fields o1 with
      | none => none
      | some num_temps =>
        match readWords fields (o1 + 1) num_temps with
        | none => none
        | some (raw_temps, o2) =>
          let temperatures := raw_temps.map (fun t => pyRound 2 ((t : ℚ) / 10 - 27315/100))
          match fieldWord fields o2 with
          | none => none
          | some raw_current =>
            let pack_current := paceDecodeCurrent raw_current
            match fieldWord fields (o2 + 2) with
            | none => none
            | some raw_tv =>
              let pack_total_voltage := pyRound 2 ((raw_tv : ℚ) / 1000)
              match fieldWord fields (o2 + 4) with
              | none => none
              | some raw_remain =>
                let pack_remain_capacity := pyRound 2 ((raw_remain : ℚ) / 100)
                match fieldNat fields (o2 + 6) with
                | none => none
                | some _define_number_p =>
                  match fieldWord fields (o2 + 7) with
                  | none => none
                  | some raw_full =>
                    let pack_full_capacity := pyRound 2 ((raw_full : ℚ) / 100)
                    match fieldWord fields (o2 + 9) with
                    | none => none
                    | some cycle_number =>
                      match fieldWord fields (o2 + 11) with
                      | none => none
                      | some raw_design =>
                        let pack_design_capacity := pyRound 2 ((raw_design : ℚ) / 100)
                        some ({ num_cells := num_cells
                                cell_voltages := cell_voltages
                                num_temps := num_temps
                                temperatures := temperatures
                                pack_current := pack_current
                                pack_total_voltage := pack_total_voltage
                                pack_remain_capacity := pack_remain_capacity
                                pack_full_capacity := pack_full_capacity
                                cycle_number := cycle_number
                                pack_design_capacity := pack_design_capacity },
                               o2 + 13)

/-- The `for pack_index in range(num_packs)` loop. -/
def parsePacePacks (fields : List (List Char)) :
    Nat → Nat → Option (List PacePackData)
  | 0, _ => some []
  | n + 1, offset =>
      match parsePacePack fields offset with
      | none => none
      | some (pd, o) =>
          match parsePacePacks fields n o with
          | none => none
          | some rest => some (pd :: rest)

/-- `PACEBMS.parse_analog_data`. -/
def parse_analog_data (response : List Char) : Option (List PacePackData) :=
  match response with
  | [] => none
  | c :: rest =>
    let body := if c = '~' then rest else c :: rest
    let fields := chunk2 body
    match fields.get? 2, fields.get? 3 with
    | some f2, some f3 =>
      if f2 = ['4', '6'] ∧ f3 = ['0', '0'] then
        match fieldWord fields 4 with
        | none => none
        | some _length =>
          match fieldNat fields 6 with
          | none => none
          | some _infoflag =>
            match fieldNat fields 7 with
            | none => none
            | some num_packs => parsePacePacks fields num_packs 8
      else none
    | _, _ => none

/-! ## Fleet aggregation

`PACEBMS.publish_analog_data_api` (and its MQTT twin) sums the per-pack
fields and divides with **no** zero guard, so a zero summed full
capacity raises `ZeroDivisionError`; the embedding returns `none`
there.  `JKBMS485.publish_analog_data_mqtt` computes
`round(remain / full * 100, 1) if full > 0 else 0`.
-/

/-- `round(sum(d.get('pack_full_capacity', 0) for d in analog_data), 2)`. -/
def pace_total_pack_full_capacity (packs : List PacePackData) : ℚ :=
  pyRound 2 (packs.map (·.pack_full_capacity)).sum

/-- `round(sum(d.get('pack_remain_capacity', 0) for d in analog_data), 2)`. -/
def pace_total_pack_remain_capacity (packs : List PacePackData) : ℚ :=
  pyRound 2 (packs.map (·.pack_remain_capacity)).sum

/-- `total_soc = round(total_pack_remain_capacity / total_pack_full_capacity
* 100, 1)` with no guard: `none` models the `ZeroDivisionError` raised
when the summed full capacity is zero. -/
def pace_total_soc (packs : List PacePackData) : Option ℚ :=
  if pace_total_pack_full_capacity packs = 0 then none
  else some (pyRound 1
    (pace_total_pack_remain_capacity packs / pace_total_pack_full_capacity packs * 100))

/-- The capacity fields of one JK pack record used by the aggregator. -/
structure JKPackData where
  view_remain_capacity : ℚ
  view_full_capacity : ℚ
  deriving DecidableEq

/-- `round(sum(d.get('view_full_capacity', 0) for d in analog_data), 2)`. -/
def jk_total_full_capacity (packs : List JKPackData) : ℚ :=
  pyRound 2 (packs.map (·.view_full_capacity)).sum

/-- `round(sum(d.get('view_remain_capacity', 0) for d in analog_data), 2)`. -/
def jk_total_remain_capacity (packs : List JKPackData) : ℚ :=
  pyRound 2 (packs.map (·.view_remain_capacity)).sum

/-- `total_soc = round(total_remain_capacity / total_full_capacity * 100, 1)
if total_full_capacity > 0 else 0`. -/
def jk_total_soc (packs : List JKPackData) : ℚ :=
  if 0 < jk_total_full_capacity packs then
    pyRound 1 (jk_total_remain_capacity packs / jk_total_full_capacity packs * 100)
  else 0

/-! ## CRC16 arithmetic lemmas

The shift-right round is an injective self-map of the 16-bit range, so
the whole CRC is injective in any single byte of its input; this is the
core of the single-byte error-detection argument.
-/

theorem crcRound_lt {c : Nat} (h : c < 65536) : crcRound c < 65536 := by
  have e : (2 : Nat) ^ 16 = 65536 := by norm_num
  unfold crcRound
  split
  · have h1 : c / 2 < 2 ^ 16 := by omega
    have h2 : (0xA001 : Nat) < 2 ^ 16 := by norm_num
    have := Nat.xor_lt_two_pow h1 h2
    omega
  · omega

theorem crcRound_inj {a b : Nat} (ha : a < 65536) (hb : b < 65536)
    (h : crcRound a = crcRound b) : a = b := by
  have e : (2 : Nat) ^ 15 = 32768 := by norm_num
  have hbit : Nat.testBit 0xA001 15 = true := by decide
  unfold crcRound at h
  rcases Nat.mod_two_eq_zero_or_one a with ha2 | ha2 <;>
    rcases Nat.mod_two_eq_zero_or_one b with hb2 | hb2
  · simp only [ha2, hb2] at h
    norm_num at h
    omega
  · simp only [ha2, hb2] at h
    norm_num at h
    have hblt : b / 2 < 2 ^ 15 := by omega
    have ht : Nat.testBit (b / 2 ^^^ 0xA001) 15 = true := by
      rw [Nat.testBit_xor, Nat.testBit_lt_two_pow hblt, hbit]
      rfl
    have hge := Nat.testBit_implies_ge ht
    omega
  · simp only [ha2, hb2] at h
    norm_num at h
    have halt : a / 2 < 2 ^ 15 := by omega
    have ht : Nat.testBit (a / 2 ^^^ 0xA001) 15 = true := by
      rw [Nat.testBit_xor, Nat.testBit_lt_two_pow halt, hbit]
      rfl
    have hge := Nat.testBit_implies_ge ht
    omega
  · simp only [ha2, hb2] at h
    norm_num at h
    have := congrArg (fun x => x ^^^ 0xA001) h
    simp only [Nat.xor_cancel_right] at this
    omega

theorem crcIter_lt (n : Nat) {c : Nat} (h : c < 65536) : crcRound^[n] c < 65536 := by
  induction n with
  | zero => simpa using h
  | succ k ih =>
      rw [Function.iterate_succ_apply']
      exact crcRound_lt ih

theorem crcIter_inj (n : Nat) {a b : Nat} (ha : a < 65536) (hb : b < 65536)
    (h : crcRound^[n] a = crcRound^[n] b) : a = b := by
  induction n with
  | zero => simpa using h
  | succ k ih =>
      rw [Function.iterate_succ_apply', Function.iterate_succ_apply'] at h
      exact ih (crcRound_inj (crcIter_lt k ha) (crcIter_lt k hb) h)

theorem crcByte_lt {s b : Nat} (hs : s < 65536) (hb : b < 256) : crcByte s b < 65536 := by
  have e : (2 : Nat) ^ 16 = 65536 := by norm_num
  have h1 : s ^^^ b < 65536 := by
    have := Nat.xor_lt_two_pow (n := 16) (x := s) (y := b) (by omega) (by omega)
    omega
  exact crcIter_lt 8 h1

theorem crcByte_inj_state {s t b : Nat} (hs : s < 65536) (ht : t < 65536) (hb : b < 256)
    (h : crcByte s b = crcByte t b) : s = t := by
  have e : (2 : Nat) ^ 16 = 65536 := by norm_num
  have h1 : s ^^^ b < 65536 := by
    have := Nat.xor_lt_two_pow (n := 16) (x := s) (y := b) (by omega) (by omega)
    omega
  have h2 : t ^^^ b < 65536 := by
    have := Nat.xor_lt_two_pow (n := 16) (x := t) (y := b) (by omega) (by omega)
    omega
  have h3 := crcIter_inj 8 h1 h2 h
  have := congrArg (fun x => x ^^^ b) h3
  simpa only [Nat.xor_cancel_right] using this

theorem crcByte_inj_byte {s a b : Nat} (hs : s < 65536) (ha : a < 256) (hb : b < 256)
    (h : crcByte s a = crcByte s b) : a = b := by
  have e : (2 : Nat) ^ 16 = 65536 := by norm_num
  have h1 : s ^^^ a < 65536 := by
    have := Nat.xor_lt_two_pow (n := 16) (x := s) (y := a) (by omega) (by omega)
    omega
  have h2 : s ^^^ b < 65536 := by
    have := Nat.xor_lt_two_pow (n := 16) (x := s) (y := b) (by omega) (by omega)
    omega
  have h3 := crcIter_inj 8 h1 h2 h
  have := congrArg (fun x => s ^^^ x) h3
  simpa only [Nat.xor_cancel_left] using this

theorem crcFoldl_lt :
    ∀ (l : List Nat) {s : Nat}, s < 65536 → (∀ x ∈ l, x < 256) →
      l.foldl crcByte s < 65536
  | [], _, hs, _ => hs
  | a :: t, s, hs, hl => by
      have ha : a < 256 := hl a (List.mem_cons_self a t)
      exact crcFoldl_lt t (crcByte_lt hs ha) (fun x hx => hl x (List.mem_cons_of_mem a hx))

theorem crcFoldl_inj :
    ∀ (l : List Nat) {s t : Nat}, s < 65536 → t < 65536 → (∀ x ∈ l, x < 256) →
      l.foldl crcByte s = l.foldl crcByte t → s = t
  | [], _, _, _, _, _, h => h
  | a :: r, s, t, hs, ht, hl, h => by
      have ha : a < 256 := hl a (List.mem_cons_self a r)
      have hr : ∀ x ∈ r, x < 256 := fun x hx => hl x (List.mem_cons_of_mem a hx)
      have h1 : crcByte s a = crcByte t a :=
        crcFoldl_inj r (crcByte_lt hs ha) (crcByte_lt ht ha) hr h
      exact crcByte_inj_state hs ht ha h1

theorem crcFoldl_set_ne :
    ∀ (l : List Nat) (i : Nat) {b s : Nat}, s < 65536 → (∀ x ∈ l, x < 256) →
      b < 256 → i < l.length → b ≠ nthD l i →
      (l.set i b).foldl crcByte s ≠ l.foldl crcByte s
  | [], i, _, _, _, _, _, hi, _ => absurd hi (by simp)
  | a :: r, 0, b, s, hs, hl, hb, _, hne => by
      have ha : a < 256 := hl a (List.mem_cons_self a r)
      have hr : ∀ x ∈ r, x < 256 := fun x hx => hl x (List.mem_cons_of_mem a hx)
      simp only [List.set_cons_zero, List.foldl_cons]
      intro h
      have h1 : crcByte s b = crcByte s a :=
        crcFoldl_inj r (crcByte_lt hs hb) (crcByte_lt hs ha) hr h
      exact hne (crcByte_inj_byte hs hb ha h1)
  | a :: r, i + 1, b, s, hs, hl, hb, hi, hne => by
      have ha : a < 256 := hl a (List.mem_cons_self a r)
      have hr : ∀ x ∈ r, x < 256 := fun x hx => hl x (List.mem_cons_of_mem a hx)
      simp only [List.set_cons_succ, List.foldl_cons]
      exact crcFoldl_set_ne r i (crcByte_lt hs ha) hr hb (by simpa using hi)
        (by simpa [nthD] using hne)

/-- Changing any single byte of the CRC input changes the CRC. -/
theorem calculate_crc16_modbus_set_ne (l : List Nat) (i : Nat) {b : Nat}
    (hl : ∀ x ∈ l, x < 256) (hb : b < 256) (hi : i < l.length) (hne : b ≠ nthD l i) :
    calculate_crc16_modbus (l.set i b) ≠ calculate_crc16_modbus l :=
  crcFoldl_set_ne l i (by norm_num) hl hb hi hne

/-! ## List index bookkeeping for single-byte alterations -/

theorem nthD_set_self {l : List Nat} {i b : Nat} (h : i < l.length) :
    nthD (l.set i b) i = b := by
  simp [nthD, List.getD_eq_getElem?_getD, List.getElem?_set_self h]

theorem nthD_set_ne {l : List Nat} {i j b : Nat} (h : i ≠ j) :
    nthD (l.set i b) j = nthD l j := by
  simp [nthD, List.getD_eq_getElem?_getD, List.getElem?_set_ne h]

theorem nthD_take {l : List Nat} {i k : Nat} (h : i < k) :
    nthD (l.take k) i = nthD l i := by
  simp [nthD, List.getD_eq_getElem?_getD, List.getElem?_take_of_lt h]

/-- Unfolding of `parse_register_response` with its lets inlined. -/
theorem parse_register_response_eq (response : List Nat) :
    parse_register_response response =
      if response.length < 5 then none
      else if nthD response (response.length - 2) + 256 * nthD response (response.length - 1)
          ≠ calculate_crc16_modbus (response.take (response.length - 2)) then none
      else if nthD response 1 ≠ 0x03 then none
      else some (regPairs ((response.drop 3).take (nthD response 2))) := rfl

/-- Claim C2 (amended, Modbus half): for every response that decodes
successfully, altering any single byte makes
`JKBMS485.parse_register_response` fail the CRC check and return no
register values.  The ASCII half of the original claim is false:
`PACEBMS.parse_analog_data` never verifies the frame checksum, so a
single-byte alteration of a valid ASCII frame *can* decode
successfully with silently altered telemetry — witnessed by
the concrete instance in the companion counterexample theorem (an
alteration may still fail for other reasons, e.g. a corrupted pack
count running past the end of the frame, but never with a checksum
error). -/
theorem claim_C2_amended (response : List Nat) (i b : Nat)
    (hbytes : ∀ x ∈ response, x < 256) (hb : b < 256) (hi : i < response.length)
    (hne : b ≠ nthD response i) (hok : (parse_register_response response).isSome = true) :
    parse_register_response (response.set i b) = none := by
  rw [parse_register_response_eq] at hok
  by_cases h5 : response.length < 5
  · rw [if_pos h5] at hok
    simp at hok
  rw [if_neg h5] at hok
  by_cases hcrcne : nthD response (response.length - 2) + 256 * nthD response (response.length - 1)
      ≠ calculate_crc16_modbus (response.take (response.length - 2))
  · rw [if_pos hcrcne] at hok
    simp at hok
  push_neg at hcrcne
  rw [parse_register_response_eq, List.length_set, if_neg h5]
  rcases lt_or_ge i (response.length - 2) with hilt | hige
  · -- a data byte changed: the recomputed CRC moves, the received CRC does not
    have htake : (response.set i b).take (response.length - 2)
        = (response.take (response.length - 2)).set i b := List.set_take
    have hcalc_ne :
        calculate_crc16_modbus ((response.take (response.length - 2)).set i b)
          ≠ calculate_crc16_modbus (response.take (response.length - 2)) := by
      apply calculate_crc16_modbus_set_ne
      · exact fun x hx => hbytes x (List.take_subset _ _ hx)
      · exact hb
      · rw [List.length_take]
        omega
      · rw [nthD_take hilt]
        exact hne
    have hrec2 : nthD (response.set i b) (response.length - 2)
        = nthD response (response.length - 2) := nthD_set_ne (by omega)
    have hrec1 : nthD (response.set i b) (response.length - 1)
        = nthD response (response.length - 1) := nthD_set_ne (by omega)
    rw [if_pos]
    rw [htake, hrec1, hrec2, hcrcne]
    exact fun h => hcalc_ne h.symm
  · -- a CRC trailer byte changed: the received CRC moves, the recomputed one does not
    have htake : (response.set i b).take (response.length - 2)
        = response.take (response.length - 2) := by
      rw [List.set_take, List.set_eq_of_length_le]
      rw [List.length_take]
      omega
    rw [if_pos]
    rw [htake]
    rw [← hcrcne]
    rcases (by omega : i = response.length - 2 ∨ i = response.length - 1) with hieq | hieq
    · subst hieq
      rw [nthD_set_self hi, nthD_set_ne (by omega)]
      intro h
      exact hne (by omega)
    · subst hieq
      rw [nthD_set_self hi, nthD_set_ne (by omega)]
      intro h
      exact hne (by omega)

/-- Claim C2 witness: the concrete frame `01 03 02 10 00 B5 84` decodes
successfully, and flipping its first payload byte makes the decode fail. -/
theorem claim_C2_witness :
    parse_register_response (([1, 3, 2, 16, 0, 181, 132] : List Nat).set 3 17) = none :=
  claim_C2_amended [1, 3, 2, 16, 0, 181, 132] 3 17 (by decide) (by decide) (by decide)
    (by decide) (by decide)

/-- Claim C2 counterexample (ASCII half): a concrete well-formed ASCII
analog response and the same frame with a single character of a
cell-voltage field altered both decode successfully —
`PACEBMS.parse_analog_data` never validates the frame checksum, so
this alteration silently changes the telemetry instead of failing with
a checksum error, refuting the claim at this input. -/
theorem claim_C2_counterexample :
    ("~25004600F0B20001010CE40000000CE41388002710000A2710".toList.zip
        "~25004600F0B20001010CE50000000CE41388002710000A2710".toList).countP
      (fun p => p.1 != p.2) = 1 ∧
    "~25004600F0B20001010CE40000000CE41388002710000A2710".toList.length =
      "~25004600F0B20001010CE50000000CE41388002710000A2710".toList.length ∧
    (parse_analog_data "~25004600F0B20001010CE40000000CE41388002710000A2710".toList).isSome
      = true ∧
    (parse_analog_data "~25004600F0B20001010CE50000000CE41388002710000A2710".toList).isSome
      = true ∧
    (parse_analog_data "~25004600F0B20001010CE40000000CE41388002710000A2710".toList).map
        (fun l => l.map (·.cell_voltages)) = some [[3300]] ∧
    (parse_analog_data "~25004600F0B20001010CE50000000CE41388002710000A2710".toList).map
        (fun l => l.map (·.cell_voltages)) = some [[3301]] := by
  refine ⟨by decide, by decide, ?_, ?_, ?_, ?_⟩ <;> decide

/-! ## Bitwise complement as subtraction, and hexadecimal digit counts -/

theorem xor_two_pow_sub_one : ∀ (k x : Nat), x < 2 ^ k → x ^^^ (2 ^ k - 1) = 2 ^ k - 1 - x := by
  intro k
  induction k with
  | zero =>
      intro x hx
      have : x = 0 := by omega
      subst this
      rfl
  | succ n ih =>
      intro x hx
      have hp : (2 : Nat) ^ (n + 1) = 2 * 2 ^ n := by ring
      have hpos : 1 ≤ (2 : Nat) ^ n := Nat.one_le_two_pow
      have hdiv2 : (2 ^ (n + 1) - 1) / 2 = 2 ^ n - 1 := by omega
      have hmod2 : (2 ^ (n + 1) - 1) % 2 = 1 := by omega
      have e1 : (x ^^^ (2 ^ (n + 1) - 1)) % 2 = (x + 1) % 2 := by
        rw [Nat.xor_mod_two_eq]
        omega
      have e2 : (x ^^^ (2 ^ (n + 1) - 1)) / 2 = 2 ^ n - 1 - x / 2 := by
        rw [Nat.xor_div_two, hdiv2]
        exact ih (x / 2) (by omega)
      omega

theorem xor_compl16 {x : Nat} (h : x < 65536) : x ^^^ 0xFFFF = 65535 - x := by
  have := xor_two_pow_sub_one 16 x (by norm_num; omega)
  norm_num at this
  exact this

theorem hexDigitsAux_length_mono : ∀ (fuel n : Nat) (acc : List Char),
    acc.length ≤ (hexDigitsAux fuel n acc).length
  | 0, _, _ => Nat.le_refl _
  | fuel + 1, n, acc => by
      rw [hexDigitsAux]
      split
      · exact Nat.le_refl _
      · refine Nat.le_trans ?_ (hexDigitsAux_length_mono fuel (n / 16) (hexDigit (n % 16) :: acc))
        exact Nat.le_succ _

theorem hexDigitsAux_length_le : ∀ (fuel k n : Nat) (acc : List Char), n < 16 ^ k →
    (hexDigitsAux fuel n acc).length ≤ k + acc.length := by
  intro fuel
  induction fuel with
  | zero =>
      intro k n acc _
      rw [hexDigitsAux]
      omega
  | succ f ih =>
      intro k n acc hn
      rw [hexDigitsAux]
      split
      · omega
      · match k with
        | 0 =>
            have : (16 : Nat) ^ 0 = 1 := by norm_num
            omega
        | m + 1 =>
            have h16 : (16 : Nat) ^ (m + 1) = 16 * 16 ^ m := by ring
            have := ih m (n / 16) (hexDigit (n % 16) :: acc) (by omega)
            simp only [List.length_cons] at this
            omega

theorem hexDigitsAux_length_ge : ∀ (fuel k n : Nat) (acc : List Char), 16 ^ k ≤ n →
    n ≤ fuel → k + 1 + acc.length ≤ (hexDigitsAux fuel n acc).length := by
  intro fuel
  induction fuel with
  | zero =>
      intro k n acc hk hf
      have hpos : 1 ≤ (16 : Nat) ^ k := Nat.one_le_pow _ _ (by omega)
      omega
  | succ f ih =>
      intro k n acc hk hf
      have hpos : 1 ≤ (16 : Nat) ^ k := Nat.one_le_pow _ _ (by omega)
      rw [hexDigitsAux]
      rw [if_neg (by omega)]
      match k with
      | 0 =>
          have := hexDigitsAux_length_mono f (n / 16) (hexDigit (n % 16) :: acc)
          simp only [List.length_cons] at this
          omega
      | m + 1 =>
          have h16 : (16 : Nat) ^ (m + 1) = 16 * 16 ^ m := by ring
          have hm : 1 ≤ (16 : Nat) ^ m := Nat.one_le_pow _ _ (by omega)
          have hdiv : 16 ^ m ≤ n / 16 := by omega
          have hfuel : n / 16 ≤ f := by omega
          have := ih m (n / 16) (hexDigit (n % 16) :: acc) hdiv hfuel
          simp only [List.length_cons] at this
          omega

theorem natToHexUpper_length_four_iff {v : Nat} (h1 : 1 ≤ v) (h2 : v ≤ 65536) :
    (natToHexUpper v).length = 4 ↔ 4096 ≤ v ∧ v < 65536 := by
  rw [natToHexUpper, if_neg (by omega)]
  have hlen : (String.mk (hexDigitsAux v v [])).length = (hexDigitsAux v v []).length := rfl
  rw [hlen]
  constructor
  · intro hfour
    constructor
    · by_contra hlt
      have := hexDigitsAux_length_le v 3 v [] (by norm_num; omega)
      simp at this
      omega
    · by_contra hge
      have := hexDigitsAux_length_ge v 4 v [] (by norm_num; omega) (Nat.le_refl v)
      simp at this
      omega
  · intro ⟨ha, hb⟩
    have hle := hexDigitsAux_length_le v 4 v [] (by norm_num; omega)
    have hge := hexDigitsAux_length_ge v 3 v [] (by norm_num; omega) (Nat.le_refl v)
    simp at hle hge
    omega

/-- Claim C3 (amended): the ASCII frame checksum value is
`65536 - (sum of all bytes except the first, mod 65536)`, i.e. the
16-bit complement of the sum plus one, but it is rendered as uppercase
hexadecimal **without zero padding**: the string has exactly 4 digits
only when the value lies in `[0x1000, 0xFFFF]`, and is the 5-digit
string `"10000"` when the byte sum is a multiple of 65536. -/
theorem claim_C3_amended (data : List Nat) :
    chksum_calc data = natToHexUpper (65536 - sumTail data % 65536) ∧
    ((chksum_calc data).length = 4 ↔
      4096 ≤ 65536 - sumTail data % 65536 ∧ 65536 - sumTail data % 65536 < 65536) := by
  have hmod : sumTail data % 65536 < 65536 := Nat.mod_lt _ (by norm_num)
  have hxor := xor_compl16 hmod
  have hval : ((sumTail data % 65536) ^^^ 0xFFFF) + 1 = 65536 - sumTail data % 65536 := by
    omega
  have heq : chksum_calc data = natToHexUpper (65536 - sumTail data % 65536) := by
    rw [chksum_calc, hval]
  refine ⟨heq, ?_⟩
  rw [heq]
  exact natToHexUpper_length_four_iff (by omega) (by omega)

/-- Claim C3 counterexample: for the byte sequence consisting of just
the start marker `0x7E`, the tail sum is 0 and
`PACEBMS.chksum_calc` returns the 5-character string `"10000"`, not a
4-digit rendering. -/
theorem claim_C3_counterexample :
    chksum_calc [0x7E] = "10000" ∧ ("10000" : String).length ≠ 4 := by
  refine ⟨by decide, by decide⟩

/-- Claim C3 witness: on a frame whose tail bytes sum into the 4-digit
range the checksum does have 4 digits. -/
theorem claim_C3_witness :
    chksum_calc [126, 255, 1] = natToHexUpper (65536 - 256) ∧
    (chksum_calc [126, 255, 1]).length = 4 :=
  ⟨(claim_C3_amended [126, 255, 1]).1,
    ((claim_C3_amended [126, 255, 1]).2).mpr (by decide)⟩

/-! ## Claim C1: fleet SOC aggregation -/

/-- Claim C1 counterexample: a fleet with zero summed full capacity
makes `PACEBMS.publish_analog_data_api` divide by zero — the embedded
aggregation returns `none` (a `ZeroDivisionError`), not the SOC `0` the
claim requires. -/
theorem claim_C1_counterexample :
    pace_total_soc [(⟨1, [3300], 0, [], 0, 33/10, 0, 0, 0, 0⟩ : PacePackData)] = none ∧
    (none : Option ℚ) ≠ some 0 := by
  have hfull :
      pace_total_pack_full_capacity [(⟨1, [3300], 0, [], 0, 33/10, 0, 0, 0, 0⟩ :
        PacePackData)] = 0 := by
    rw [pace_total_pack_full_capacity]
    simp only [List.map_cons, List.map_nil, List.sum_cons, List.sum_nil]
    rw [pyRound_eq_intCast_div 0 (by norm_num)]
    norm_num
  exact ⟨by rw [pace_total_soc, if_pos hfull], by simp⟩

/-- Claim C1 (amended): the JKBMS aggregator is division-safe — fleet
SOC is `round(remain / full * 100, 1)` over the rounded capacity sums
when the summed full capacity is positive and `0` otherwise — while the
PACE aggregator divides unguarded and raises `ZeroDivisionError`
whenever the summed full capacity is zero. -/
theorem claim_C1_amended :
    (∀ packs : List JKPackData,
      (0 < jk_total_full_capacity packs →
        jk_total_soc packs =
          pyRound 1 (jk_total_remain_capacity packs / jk_total_full_capacity packs * 100)) ∧
      (jk_total_full_capacity packs ≤ 0 → jk_total_soc packs = 0)) ∧
    (∀ packs : List PacePackData, pace_total_pack_full_capacity packs = 0 →
      pace_total_soc packs = none) := by
  refine ⟨fun packs => ⟨fun h => ?_, fun h => ?_⟩, fun packs h => ?_⟩
  · rw [jk_total_soc, if_pos h]
  · rw [jk_total_soc, if_neg (not_lt.mpr h)]
  · rw [pace_total_soc, if_pos h]

/-- Claim C1 witness: two JK packs of `full = 100 Ah, remain = 50 Ah`
aggregate to fleet SOC `50.0`, and an all-zero fleet aggregates to `0`. -/
theorem claim_C1_witness :
    jk_total_soc [⟨50, 100⟩, ⟨50, 100⟩] = 50 ∧ jk_total_soc [⟨0, 0⟩, ⟨0, 0⟩] = 0 := by
  have hfull : jk_total_full_capacity [⟨50, 100⟩, ⟨50, 100⟩] = 200 := by
    rw [jk_total_full_capacity]
    simp only [List.map_cons, List.map_nil, List.sum_cons, List.sum_nil]
    rw [show (100 : ℚ) + (100 + 0) = 200 by norm_num,
      pyRound_eq_intCast_div 20000 (by norm_num)]
    norm_num
  have hrem : jk_total_remain_capacity [⟨50, 100⟩, ⟨50, 100⟩] = 100 := by
    rw [jk_total_remain_capacity]
    simp only [List.map_cons, List.map_nil, List.sum_cons, List.sum_nil]
    rw [show (50 : ℚ) + (50 + 0) = 100 by norm_num,
      pyRound_eq_intCast_div 10000 (by norm_num)]
    norm_num
  have hzero : jk_total_full_capacity [⟨0, 0⟩, ⟨0, 0⟩] = 0 := by
    rw [jk_total_full_capacity]
    simp only [List.map_cons, List.map_nil, List.sum_cons, List.sum_nil]
    rw [show (0 : ℚ) + (0 + 0) = 0 by norm_num, pyRound_eq_intCast_div 0 (by norm_num)]
    norm_num
  constructor
  · have h := (claim_C1_amended.1 [⟨50, 100⟩, ⟨50, 100⟩]).1 (by rw [hfull]; norm_num)
    rw [h, hfull, hrem, show (100 : ℚ) / 200 * 100 = 50 by norm_num,
      pyRound_eq_intCast_div 500 (by norm_num)]
    norm_num
  · exact (claim_C1_amended.1 [⟨0, 0⟩, ⟨0, 0⟩]).2 (by rw [hzero])

/-! ## Claim C4: energy accumulator state machine -/

/-- Claim C4: the accumulator's two-state machine — a first call stores
the timestamp and returns the unchanged zero totals; a call with
elapsed `≤ 0` or `> 300` seconds stores the new timestamp but returns
unchanged totals; a call with valid elapsed time adds
`|power| * elapsed * 1000 / 3600` Wh to the charged total when
`power ≥ 0` and to the discharged total otherwise. -/
theorem claim_C4_state_machine (st : EnergyState) (p now last : ℚ) :
    (calculate_cumulative_energy initEnergyState p now =
      ({ total_energy_charged := 0, total_energy_discharged := 0,
         last_energy_time := some now }, (0, 0))) ∧
    (st.last_energy_time = some last → (now - last ≤ 0 ∨ 300 < now - last) →
      calculate_cumulative_energy st p now =
        ({ st with last_energy_time := some now },
         (st.total_energy_charged, st.total_energy_discharged))) ∧
    (st.last_energy_time = some last → 0 < now - last → now - last ≤ 300 → 0 ≤ p →
      calculate_cumulative_energy st p now =
        ({ st with
            last_energy_time := some now
            total_energy_charged :=
              st.total_energy_charged + |p| * (now - last) * 1000 / 3600 },
         (st.total_energy_charged + |p| * (now - last) * 1000 / 3600,
          st.total_energy_discharged))) ∧
    (st.last_energy_time = some last → 0 < now - last → now - last ≤ 300 → p < 0 →
      calculate_cumulative_energy st p now =
        ({ st with
            last_energy_time := some now
            total_energy_discharged :=
              st.total_energy_discharged + |p| * (now - last) * 1000 / 3600 },
         (st.total_energy_charged,
          st.total_energy_discharged + |p| * (now - last) * 1000 / 3600))) := by
  obtain ⟨c, d, lt⟩ := st
  refine ⟨rfl, ?_, ?_, ?_⟩ <;> intro h
  · cases h
    intro hcond
    simp only [calculate_cumulative_energy]
    rw [if_pos hcond]
  · cases h
    intro h1 h2 hp
    simp only [calculate_cumulative_energy]
    rw [if_neg (by push_neg; exact ⟨h1, h2⟩), if_pos hp]
  · cases h
    intro h1 h2 hp
    simp only [calculate_cumulative_energy]
    rw [if_neg (by push_neg; exact ⟨h1, h2⟩), if_neg (not_le.mpr hp)]

/-- Claim C4 witness: a valid 100-second interval at 1 kW adds
`1 * 100 * 1000 / 3600 = 250/9` Wh to the charged total. -/
theorem claim_C4_witness :
    calculate_cumulative_energy ⟨0, 0, some 0⟩ 1 100 = (⟨250/9, 0, some 100⟩, (250/9, 0)) := by
  have h := (claim_C4_state_machine ⟨0, 0, some 0⟩ 1 100 0).2.2.1 rfl (by norm_num)
    (by norm_num) (by norm_num)
  rw [h]
  norm_num

/-! ## Claim C5: ASCII pack-current sign handling -/

/-- Claim C5: the source divides the raw current by 100 and rounds
*before* testing `> 32767`, so the two's-complement branch can never
fire on a 16-bit word: every raw value decodes to `raw / 100` A; in
particular `0xFFFF` (claim value `-0.01` A) decodes to `+655.35` A,
and a frame carrying it decodes without error. -/
theorem claim_C5_code_divides_before_sign_test :
    (∀ v : Fin 65536, paceDecodeCurrent v = (v : ℚ) / 100) ∧
    paceDecodeCurrent 65535 = 65535 / 100 ∧
    pyRound 2 (((65535 : ℚ) - 65536) / 100) = -1 / 100 ∧
    (65535 : ℚ) / 100 ≠ -1 / 100 ∧
    (parse_analog_data "~25004600F0B20001010CE400FFFF0CE41388002710000A2710".toList).isSome
      = true := by
  have hgen : ∀ v : Fin 65536, paceDecodeCurrent v = (v : ℚ) / 100 := by
    intro v
    have hv : (v : ℚ) < 65536 := by exact_mod_cast v.isLt
    have hv0 : (0 : ℚ) ≤ (v : ℚ) := by positivity
    have hr : pyRound 2 ((v : ℚ) / 100) = ((v : ℤ) : ℚ) / 10 ^ 2 := by
      refine pyRound_eq_intCast_div (v : ℤ) ?_
      push_cast
      ring
    rw [paceDecodeCurrent, hr, if_neg ?_]
    · push_cast
      norm_num
    · push_cast
      intro hcon
      rw [lt_div_iff₀ (by norm_num : (0 : ℚ) < 10 ^ 2)] at hcon
      linarith
  refine ⟨hgen, ?_, ?_, by norm_num, by decide⟩
  · have h := hgen ⟨65535, by norm_num⟩
    simpa using h
  · rw [pyRound_eq_intCast_div (-1) (by norm_num)]
    norm_num

/-! ## Claim C6: Modbus read-request bytes -/

/-- Claim C6: for every in-range slave address, register address and
register count, the built request is exactly
`slave ++ 0x03 ++ addr(BE) ++ count(BE) ++ CRC16(LE)` with the CRC
computed by the seeded shift-right algorithm over the first 6 bytes. -/
theorem claim_C6_request_bytes (slave addr count : Nat)
    (hs : slave < 256) (ha : addr < 65536) (hc : count < 65536) :
    build_read_register_command slave addr count =
      some ([slave, 0x03, addr / 256, addr % 256, count / 256, count % 256] ++
        [calculate_crc16_modbus
            [slave, 0x03, addr / 256, addr % 256, count / 256, count % 256] % 256,
         calculate_crc16_modbus
            [slave, 0x03, addr / 256, addr % 256, count / 256, count % 256] / 256]) := by
  have hbytes : ∀ x ∈ [slave, 0x03, addr / 256, addr % 256, count / 256, count % 256],
      x < 256 := by
    intro x hx
    simp only [List.mem_cons, List.not_mem_nil, or_false] at hx
    rcases hx with h | h | h | h | h | h <;> subst h <;> omega
  have hcrc : calculate_crc16_modbus
      [slave, 0x03, addr / 256, addr % 256, count / 256, count % 256] < 65536 :=
    crcFoldl_lt _ (by norm_num) hbytes
  rw [build_read_register_command, if_pos ⟨hs, ha, hc⟩]
  simp only [packU16BE, List.cons_append, List.nil_append]
  rw [Nat.mod_eq_of_lt (show addr / 256 < 256 by omega),
    Nat.mod_eq_of_lt (show count / 256 < 256 by omega),
    Nat.mod_eq_of_lt (show calculate_crc16_modbus _ / 256 < 256 by omega)]

/-- Claim C6 witness: reading one register at `0x1202` from slave 1
builds the frame `01 03 12 02 00 01 20 B2`. -/
theorem claim_C6_witness :
    build_read_register_command 1 0x1202 1 = some [1, 3, 18, 2, 0, 1, 32, 178] := by
  rw [claim_C6_request_bytes 1 0x1202 1 (by decide) (by decide) (by decide)]
  decide

/-! ## Claim C7: over-declared byte count -/

theorem regPairs_length : ∀ l : List Nat, (regPairs l).length = l.length / 2
  | [] => by simp [regPairs]
  | [_] => by simp [regPairs]
  | _ :: _ :: r => by
      have ih := regPairs_length r
      simp only [regPairs, List.length_cons, ih]
      omega

/-- Claim C7 counterexample: the frame `01 03 04 10 00 55 85` passes
CRC and function-code checks but declares `byteCount = 4` with only 2
payload bytes present; the parser returns a value list — whose second
entry even decodes the CRC trailer as a register — instead of failing
with `IncompleteDataError`. -/
theorem claim_C7_counterexample :
    parse_register_response [1, 3, 4, 16, 0, 85, 133] = some [4096, 21893] ∧
    (some [4096, 21893] : Option (List Nat)) ≠ none := by
  refine ⟨by decide, by decide⟩

/-- Claim C7 (amended): a response that passes the length, CRC and
function-code checks never fails on its declared `byteCount`; the
parser slices `byteCount` bytes starting at offset 3 of the whole
response (clamped at its end, so the slice can include the CRC trailer)
and silently returns the `⌊slice/2⌋` complete register pairs. -/
theorem claim_C7_amended (response : List Nat) (h5 : 5 ≤ response.length)
    (hcrc : nthD response (response.length - 2) + 256 * nthD response (response.length - 1)
      = calculate_crc16_modbus (response.take (response.length - 2)))
    (hfc : nthD response 1 = 0x03) :
    ∃ vs, parse_register_response response = some vs ∧
      vs.length = min (nthD response 2) (response.length - 3) / 2 := by
  rw [parse_register_response_eq, if_neg (by omega), if_neg (by simp [hcrc]),
    if_neg (by simp [hfc])]
  refine ⟨_, rfl, ?_⟩
  rw [regPairs_length, List.length_take, List.length_drop]

/-- Claim C7 witness: the over-declaring frame of the counterexample
satisfies the amended characterisation with `min 4 4 / 2 = 2` values. -/
theorem claim_C7_witness :
    ∃ vs, parse_register_response [1, 3, 4, 16, 0, 85, 133] = some vs ∧
      vs.length = min (nthD [1, 3, 4, 16, 0, 85, 133] 2)
        (([1, 3, 4, 16, 0, 85, 133] : List Nat).length - 3) / 2 :=
  claim_C7_amended [1, 3, 4, 16, 0, 85, 133] (by decide) (by decide) (by decide)

/-! ## Claim C8: warning-code mapping -/

/-- Claim C8: `PACEBMS.interpret_warning` maps `0x00` to `normal`,
`0x01` to `below lower limit`, `0x02` to `above upper limit`, values in
`0x80..0xEF` to `user defined`, `0xF0` to `other fault`, and everything
else to `unknown`. -/
theorem claim_C8_mapping (v : Nat) :
    (v = 0x00 → interpret_warning v = "normal") ∧
    (v = 0x01 → interpret_warning v = "below lower limit") ∧
    (v = 0x02 → interpret_warning v = "above upper limit") ∧
    (0x80 ≤ v → v ≤ 0xEF → interpret_warning v = "user defined") ∧
    (v = 0xF0 → interpret_warning v = "other fault") ∧
    (v ≠ 0x00 → v ≠ 0x01 → v ≠ 0x02 → ¬(0x80 ≤ v ∧ v ≤ 0xEF) → v ≠ 0xF0 →
      interpret_warning v = "unknown") := by
  refine ⟨?_, ?_, ?_, ?_, ?_, ?_⟩
  · rintro rfl; rfl
  · rintro rfl; rfl
  · rintro rfl; rfl
  · intro h1 h2
    rw [interpret_warning, if_neg (by omega), if_neg (by omega), if_neg (by omega),
      if_pos ⟨h1, h2⟩]
  · rintro rfl; rfl
  · intro h1 h2 h3 h4 h5
    rw [interpret_warning, if_neg h1, if_neg h2, if_neg h3, if_neg h4, if_neg h5]

/-- Claim C8 witness: `0x85` is `user defined` and `0x50` is `unknown`. -/
theorem claim_C8_witness :
    interpret_warning 0x85 = "user defined" ∧ interpret_warning 0x50 = "unknown" :=
  ⟨(claim_C8_mapping 0x85).2.2.2.1 (by decide) (by decide),
   (claim_C8_mapping 0x50).2.2.2.2.2 (by decide) (by decide) (by decide) (by decide)
     (by decide)⟩

/-! ## Claim C9: totals are monotone, only reset zeroes them -/

theorem energy_step_mono (st : EnergyState) (p t : ℚ) :
    st.total_energy_charged ≤ (calculate_cumulative_energy st p t).1.total_energy_charged ∧
    st.total_energy_discharged ≤
      (calculate_cumulative_energy st p t).1.total_energy_discharged := by
  obtain ⟨c, d, lt⟩ := st
  cases lt with
  | none => exact ⟨le_refl _, le_refl _⟩
  | some last =>
      simp only [calculate_cumulative_energy]
      split_ifs with h1 h2
      · exact ⟨le_refl _, le_refl _⟩
      · have h0 : 0 < t - last := by push_neg at h1; exact h1.1
        have hnn : 0 ≤ |p| * (t - last) * 1000 / 3600 := by positivity
        exact ⟨le_add_of_nonneg_right hnn, le_refl _⟩
      · have h0 : 0 < t - last := by push_neg at h1; exact h1.1
        have hnn : 0 ≤ |p| * (t - last) * 1000 / 3600 := by positivity
        exact ⟨le_refl _, le_add_of_nonneg_right hnn⟩

/-- Claim C9: over any sequence of accumulate calls, whatever the power
values and timestamps, both cumulative totals are monotonically
non-decreasing; the explicit reset returns both totals to zero and
clears the stored timestamp. -/
theorem claim_C9_monotone :
    (∀ (calls : List (ℚ × ℚ)) (st : EnergyState),
      st.total_energy_charged ≤ (runEnergyCalls st calls).total_energy_charged ∧
      st.total_energy_discharged ≤ (runEnergyCalls st calls).total_energy_discharged) ∧
    reset_cumulative_energy.total_energy_charged = 0 ∧
    reset_cumulative_energy.total_energy_discharged = 0 ∧
    reset_cumulative_energy.last_energy_time = none := by
  refine ⟨?_, rfl, rfl, rfl⟩
  intro calls
  induction calls with
  | nil => exact fun st => ⟨le_refl _, le_refl _⟩
  | cons cpair rest ih =>
      intro st
      have h1 := energy_step_mono st cpair.1 cpair.2
      have h2 := ih (calculate_cumulative_energy st cpair.1 cpair.2).1
      have hrun : runEnergyCalls st (cpair :: rest) =
          runEnergyCalls (calculate_cumulative_energy st cpair.1 cpair.2).1 rest := rfl
      rw [hrun]
      exact ⟨le_trans h1.1 h2.1, le_trans h1.2 h2.2⟩

/-! ## Claim C10: zero cell voltages are filtered out -/

/-- Claim C10: every voltage returned by the `JKBMS485.get_cell_voltages`
filtering step is strictly positive, the returned list is never longer
than the decoded register list, and it can be strictly shorter (so its
indices need not correspond to physical cell positions). -/
theorem claim_C10_positive_filter (register_values : List Nat) :
    (∀ v ∈ get_cell_voltages_filter register_values, 0 < v) ∧
    (get_cell_voltages_filter register_values).length ≤ register_values.length ∧
    ∃ rv : List Nat, (get_cell_voltages_filter rv).length < rv.length := by
  refine ⟨?_, List.length_filter_le _ _, ⟨[0], by decide⟩⟩
  intro v hv
  have h := List.of_mem_filter hv
  simpa using h

/-- Claim C10 witness: the zero register is dropped and the surviving
voltage is positive. -/
theorem claim_C10_witness : 0 < 3300 ∧ get_cell_voltages_filter [0, 3300] = [3300] :=
  ⟨(claim_C10_positive_filter [0, 3300]).1 3300 (by decide), by decide⟩

end Gobel
